import Mathlib

/-!
Verification of the axel Motorola 6800 assembler core against its
specification.  The Python sources under axel/ are shallowly embedded as
Lean definitions: machine integers become Int with explicit mod 2^N,
fallible code returns Option, and mutation becomes explicit state passing.
Python bitwise identities used throughout the embedding:
for any Python int n, n & 255 = n mod 256 and n & 65535 = n mod 65536
(mask by an all-ones pattern), bitwise not is given by -n - 1, and
n & 128 = 128 exactly when (n >> 7) is odd, where >> floors.
-/

namespace axel

/-- Embedding of symbol.py U_Int8: an unsigned 8-bit value keeping the
unmasked raw counterpart.  The constructor stores raw unmasked and the
value masked to 8 bits. -/
structure U_Int8 where
  raw : Int
  num : Int
deriving DecidableEq, Repr

/-- U_Int8.__init__: self.raw = num; self.num = num & 255. -/
def U_Int8.init (n : Int) : U_Int8 :=
  { raw := n, num := n % 256 }

/-- U_Int8.__add__: updates raw in place, returns the masked sum, leaves
num unchanged.  The pair is (object after the call, returned value). -/
def U_Int8.add (u : U_Int8) (of : Int) : U_Int8 × Int :=
  ({ raw := u.raw + of, num := u.num }, (u.num + of) % 256)

/-- U_Int8.__iadd__: updates raw and the masked value. -/
def U_Int8.iadd (u : U_Int8) (of : Int) : U_Int8 :=
  { raw := u.raw + of, num := (u.num + of) % 256 }

/-- U_Int8.__sub__: updates raw in place, returns the masked difference,
leaves num unchanged. -/
def U_Int8.sub (u : U_Int8) (of : Int) : U_Int8 × Int :=
  ({ raw := u.raw - of, num := u.num }, (u.num - of) % 256)

/-- U_Int8.__isub__: updates raw and the masked value. -/
def U_Int8.isub (u : U_Int8) (of : Int) : U_Int8 :=
  { raw := u.raw - of, num := (u.num - of) % 256 }

/-- Embedding of symbol.py Int8: a signed 8-bit value. -/
structure Int8 where
  num : Int
deriving DecidableEq, Repr

/-- Int8._to_int8: if (128 & num == 128) the code computes
-((~num + 1) & 127), otherwise it returns num unchanged.  In Python
~num + 1 = -num and x & 127 = x mod 128, and 128 & num == 128 exactly
when bit 7 of num is set, i.e. num >> 7 (floor shift) is odd. -/
def Int8.to_int8 (n : Int) : Int :=
  if (n.fdiv 128) % 2 = 1 then -((-n) % 128) else n

/-- Int8.__init__: self.num = self._to_int8(num). -/
def Int8.init (n : Int) : Int8 :=
  { num := Int8.to_int8 n }

/-- Embedding of symbol.py U_Int16: an unsigned 16-bit value.  Note the
source class has no raw attribute. -/
structure U_Int16 where
  num : Int
deriving DecidableEq, Repr

/-- U_Int16.__init__: self.num = num & 65535. -/
def U_Int16.init (n : Int) : U_Int16 :=
  { num := n % 65536 }

/-- U_Int16.__iadd__. -/
def U_Int16.iadd (u : U_Int16) (of : Int) : U_Int16 :=
  { num := (u.num + of) % 65536 }

/-- U_Int16.__isub__. -/
def U_Int16.isub (u : U_Int16) (of : Int) : U_Int16 :=
  { num := (u.num - of) % 65536 }

/-- An in-place update step on a U_Int8: the += and -= operators. -/
inductive U8Op
  | iadd (k : Int)
  | isub (k : Int)
deriving DecidableEq, Repr

/-- Apply one in-place operator to a U_Int8. -/
def U8Op.apply (u : U_Int8) : U8Op → U_Int8
  | .iadd k => u.iadd k
  | .isub k => u.isub k

/-- Run a sequence of in-place += and -= operators starting from
U_Int8(n). -/
def U_Int8.runOps (n : Int) (ops : List U8Op) : U_Int8 :=
  ops.foldl U8Op.apply (U_Int8.init n)

/-- The mathematical reinterpretation of the low 8 bits of an integer as
a two's-complement signed byte, as the claim words it. -/
def twosComplementLow8 (n : Int) : Int :=
  if 128 ≤ n % 256 then n % 256 - 256 else n % 256

/-- Embedding of tokens.py AddressingMode. -/
inductive AddressingMode
  | ACC | IMM | DIR | EXT | IDX | INH | REL
deriving DecidableEq, Repr

/-- The three operand registers of tokens.py Register that can occur in
an operand sequence (T_A, T_B, T_X). -/
inductive Reg
  | A | B | X
deriving DecidableEq, Repr

/-- The token kinds an operand sequence can contain, as accepted by
Parser.operands: registers, commas and the literal datatypes of
tokens.py Token. -/
inductive AToken
  | reg (r : Reg)
  | comma
  | imm8
  | imm16
  | dir8
  | ext16
  | disp8
deriving DecidableEq, Repr

/-- Embedding of tokens.py Mnemonic: the 72 instruction mnemonics. -/
inductive Mnemonic
  | T_ABA | T_ADC | T_ADD | T_SBA | T_SBC | T_SUB
  | T_AND | T_ORA | T_EOR | T_COM | T_NEG
  | T_ASL | T_ASR | T_LSR | T_ROL | T_ROR
  | T_BCC | T_BCS | T_BEQ | T_BNE | T_BGE | T_BGT | T_BLE | T_BLT
  | T_BHI | T_BLS | T_BMI | T_BPL | T_BVC | T_BVS | T_BRA | T_BSR
  | T_JMP | T_JSR | T_RTI | T_RTS
  | T_LDA | T_LDS | T_LDX | T_STA | T_STS | T_STX
  | T_TAB | T_TBA | T_TSX | T_TXS | T_TAP | T_TPA
  | T_PSH | T_PUL
  | T_BIT | T_CBA | T_CMP | T_CPX | T_TST
  | T_DEC | T_INC | T_DEX | T_INX | T_DES | T_INS
  | T_CLC | T_CLI | T_CLV | T_SEC | T_SEI | T_SEV
  | T_CLR | T_DAA | T_NOP | T_SWI | T_WAI
deriving DecidableEq, Repr

/-- Embedding of tokens.py Branch_Mnemonics: the 16 branch mnemonics. -/
def Mnemonic.isBranch : Mnemonic → Bool
  | .T_BCC | .T_BCS | .T_BEQ | .T_BGE | .T_BGT | .T_BHI | .T_BLE
  | .T_BLS | .T_BLT | .T_BMI | .T_BNE | .T_BPL | .T_BRA | .T_BSR
  | .T_BVC | .T_BVS => true
  | _ => false

/-- Modelled from the spec: axel/data.py is not in src/.  The mnemonics
that permit accumulator (ACC) form, read off the opcode table of the
spec (the rows with an ACC-A/ACC-B column). -/
def Mnemonic.accOk : Mnemonic → Bool
  | .T_ASL | .T_ASR | .T_LSR | .T_CLR | .T_COM | .T_DEC | .T_INC
  | .T_NEG | .T_ROL | .T_ROR | .T_TST => true
  | _ => false

/-- Embedding of lexer.py yylex_t: a token together with its lexeme.
The data payload is optional, as in the source TypedDict. -/
structure Yylex where
  token : AToken
  data : Option (List Char)
deriving DecidableEq, Repr

/-- Embedding of assembler.py Registers: the simulated register file.
SR is the 6-bit flag vector documented in the source as
C at index 0, Z at 1, S at 2, O at 3, I at 4 and AC at 5.
The stack is not modelled; no embedded operation touches it. -/
structure Registers where
  AccA : U_Int8
  AccB : U_Int8
  X : U_Int16
  SP : U_Int16
  PC : U_Int16
  SR : List Bool
deriving DecidableEq, Repr

/-- Value of one hexadecimal digit character, 0-9, a-f or A-F. -/
def hexVal (c : Char) : Option Nat :=
  if ('0' ≤ c ∧ c ≤ '9') then some (c.toNat - '0'.toNat)
  else if ('a' ≤ c ∧ c ≤ 'f') then some (c.toNat - 'a'.toNat + 10)
  else if ('A' ≤ c ∧ c ≤ 'F') then some (c.toNat - 'A'.toNat + 10)
  else none

/-- Embedding of Python bytes.fromhex on a run of hex digits: two digits
per byte, failing on an odd-length or non-hex input.  (The source is only
ever applied to digit runs, so the blank-skipping of fromhex between
byte pairs is irrelevant and not modelled.) -/
def fromhexL : List Char → Option (List Nat)
  | [] => some []
  | [_] => none
  | c1 :: c2 :: rest =>
    match hexVal c1, hexVal c2, fromhexL rest with
    | some h, some l, some bs => some ((16 * h + l) :: bs)
    | _, _, _ => none

/-- Embedding of parser.py Parser.parse_immediate_value: strip a leading
pair of number-sign and dollar characters, otherwise strip a single
leading character, then hex-decode the rest.  A failing decode is the
fatal ValueError of bytes.fromhex. -/
def Parser.parse_immediate_value (value : List Char) : Option (List Nat) :=
  if value.take 1 = ['#'] ∧ (value.drop 1).take 1 = ['$'] then
    fromhexL (value.drop 2)
  else
    fromhexL (value.drop 1)

/-- Embedding of int(bs.hex(), 16) as used by the translator: the
big-endian value of a byte sequence; int of the empty string raises. -/
def pyIntOfBytes (bs : List Nat) : Option Nat :=
  if bs.isEmpty then none else some (bs.foldl (fun a b => 256 * a + b) 0)

/-- Embedding of hex(n) with the 0x prefix stripped, for n ≥ 0:
lowercase hex digits without leading zeros, the single digit 0 for 0. -/
def pyHexChars (n : Nat) : List Char :=
  Nat.toDigits 16 n

/-- The length of bin(n) without the 0b prefix, for n ≥ 0: the number
of binary digits in its rendering, a single digit 0 for 0. -/
def pyBitLen (n : Nat) : Nat :=
  (Nat.toDigits 2 n).length

/-- The common shape of a translator operation: addressing mode and
operand sequence in, updated register file and emitted bytes out, with
none for a raised Python exception. -/
def OpFn : Type :=
  AddressingMode → List Yylex → Registers → Option (Registers × List Nat)

/-- Embedding of opcode.py Translate.aba: opcode 1B; in ACC mode AccA is
incremented by AccB.num; the opcode is returned in every mode. -/
def Translate.aba : OpFn := fun addr_mode _operands registers =>
  let opcode : List Nat := [0x1B]
  if addr_mode = .ACC then
    some ({ registers with AccA := registers.AccA.iadd registers.AccB.num }, opcode)
  else
    some (registers, opcode)

/-- Embedding of opcode.py Translate.adc.  In IMM mode the opcode is 89
when the trailing operand datum is the character A and C9 otherwise; the
operand literal is hex-decoded and, when the carry flag SR[0] is set, the
carry bit is prepended to its binary representation (adding 2 to the
power of its bit length); the sum is added in place to AccA in both the
A and the B branch.  The returned bytes are the opcode followed by
bytearray.fromhex(hex(data)[2:]), which raises on a one-digit hex
rendering; outside IMM mode opcode is empty and data stays 0, so that
final conversion always raises (hex digit 0 alone).  In the source the
register mutation precedes the final conversion; the Option model
collapses a later raise to none. -/
def Translate.adc : OpFn := fun addr_mode operands registers =>
  match operands.head? with
  | none => none
  | some y0 =>
    match y0.data with
    | none => none
    | some o =>
      if addr_mode = .IMM then
        match operands.getLast? with
        | none => none
        | some ylast =>
          let opcode : List Nat :=
            if ylast.data = some ['A'] then [0x89] else [0xC9]
          match Parser.parse_immediate_value o with
          | none => none
          | some bs =>
            match pyIntOfBytes bs with
            | none => none
            | some operand =>
              match registers.SR.get? 0 with
              | none => none
              | some carry =>
                let data : Nat :=
                  if carry then operand + 2 ^ pyBitLen operand else operand
                let registers1 :=
                  { registers with AccA := registers.AccA.iadd data }
                match fromhexL (pyHexChars data) with
                | none => none
                | some db => some (registers1, opcode ++ db)
      else
        none

/-- Embedding of opcode.py Translate.clv: opcode 0A and the assignment
registers.SR[1] = False. -/
def Translate.clv : OpFn := fun _addr_mode _operands registers =>
  some ({ registers with SR := registers.SR.set 1 false }, [0x0A])

/-- Embedding of opcode.py sev (defined at module level in the source):
opcode 0B and the assignment registers.SR[1] = True. -/
def sev : OpFn := fun _addr_mode _operands registers =>
  some ({ registers with SR := registers.SR.set 1 true }, [0x0B])

/-- Embedding of opcode.py lda (defined at module level in the source).
In IMM mode the opcode is 86, the hex-decoded operand value is assigned
to AccA (the source rebinds the attribute to a plain int, modelled as a
U_Int8 carrying that value in both fields), and only the opcode byte is
returned; DIR and EXT yield opcodes 96 and B6; any other mode returns
the empty byte sequence. -/
def lda : OpFn := fun addr_mode operands registers =>
  if addr_mode = .IMM then
    match operands.head? with
    | none => none
    | some y0 =>
      match y0.data with
      | none => none
      | some o =>
        match Parser.parse_immediate_value o with
        | none => none
        | some bs =>
          match pyIntOfBytes bs with
          | none => none
          | some v =>
            some ({ registers with AccA := { raw := v, num := v } }, [0x86])
  else if addr_mode = .DIR then some (registers, [0x96])
  else if addr_mode = .EXT then some (registers, [0xB6])
  else some (registers, [])

/-- Modelled from the spec: axel/data.py, which defines the processing
wrapper, is not in src/ (only opcode.py and the unit tests import it).
Per spec section 4.5, after the wrapped operation returns the status
register is recomputed from the post-state of the accumulators and their
raw counterparts, with AccA as the destination: C is set iff the raw
value left the unsigned 8-bit range, Z iff the masked value is 0, S iff
its high bit is set, O iff the two accumulator inputs agreed in sign and
the result disagrees, I is preserved, and AC is set iff a carry occurred
out of bit 3; the raw counters are then reset to the masked values so
flags describe only the last operation. -/
def processing (op : OpFn) : OpFn := fun addr_mode operands registers =>
  match op addr_mode operands registers with
  | none => none
  | some (r1, bs) =>
    let dest := r1.AccA
    let carry := decide (255 < dest.raw ∨ dest.raw < 0)
    let zero := decide (dest.num = 0)
    let sign := decide (128 ≤ dest.num)
    let ovf := decide ((128 ≤ registers.AccA.num ↔ 128 ≤ registers.AccB.num) ∧
      ¬(128 ≤ dest.num ↔ 128 ≤ registers.AccA.num))
    let intr := registers.SR.getD 4 false
    let ac := decide (16 ≤ registers.AccA.num % 16 +
      (dest.raw - registers.AccA.num) % 16)
    some ({ r1 with
              SR := [carry, zero, sign, ovf, intr, ac]
              AccA := { raw := r1.AccA.num, num := r1.AccA.num }
              AccB := { raw := r1.AccB.num, num := r1.AccB.num } }, bs)

/-- Does this operand token denote an immediate literal. -/
def isImmTok : AToken → Bool
  | .imm8 => true
  | .imm16 => true
  | _ => false

/-- Does the operand sequence contain an immediate literal. -/
def hasImm (ops : List AToken) : Bool :=
  ops.any isImmTok

/-- Does the operand sequence contain a direct 8-bit address followed by
a comma followed by register X. -/
def hasIdx : List AToken → Bool
  | .dir8 :: .comma :: .reg .X :: _ => true
  | _ :: rest => hasIdx rest
  | [] => false

/-- Modelled from the spec: axel/data.py, which defines
get_addressing_mode, is not in src/.  The direct addressing-mode
classifier of spec section 4.3, rules 1 to 8 evaluated in order with the
first match winning; rule 8 (no match) is the parser error, none. -/
def get_addressing_mode (m : Mnemonic) (ops : List AToken) :
    Option AddressingMode :=
  if m.isBranch ∧ ops = [.disp8] then some .REL
  else if hasImm ops then some .IMM
  else if hasIdx ops then some .IDX
  else if ops = [.dir8] then some .DIR
  else if ops = [.ext16] then some .EXT
  else if (ops = [.reg .A] ∨ ops = [.reg .B]) ∧ m.accOk then some .ACC
  else if ops = ([] : List AToken) then some .INH
  else none

/-- The walk states of the operand state machine named by the spec. -/
inductive SMState
  | start | sawReg | sawLit | sawComma | sawX
deriving DecidableEq, Repr

/-- Progress through a potential direct-address, comma, X operand
pattern: nothing, the address seen, or address and comma seen. -/
inductive IdxProg
  | p0 | p1 | p2
deriving DecidableEq, Repr

/-- How many operand tokens have been walked: none, exactly the recorded
one, or more than one. -/
inductive Seen
  | zero
  | one (t : AToken)
  | many
deriving DecidableEq, Repr

/-- State transition of the walk: a register moves to sawReg (sawX for
X), a comma to sawComma, any literal to sawLit. -/
def stepState : AToken → SMState
  | .reg .X => .sawX
  | .reg _ => .sawReg
  | .comma => .sawComma
  | _ => .sawLit

/-- Next indexed-pattern progress after one token. -/
def stepProgNext : IdxProg → AToken → IdxProg
  | _, .dir8 => .p1
  | .p1, .comma => .p2
  | _, _ => .p0

/-- Whether this token completes the indexed pattern from the given
progress. -/
def stepProgHit : IdxProg → AToken → Bool
  | .p2, .reg .X => true
  | _, _ => false

/-- Token-count transition. -/
def stepSeen : Seen → AToken → Seen
  | .zero, t => .one t
  | _, _ => .many

/-- The running context of the operand state machine. -/
structure SMCtx where
  state : SMState
  sawImm : Bool
  idxDone : Bool
  prog : IdxProg
  seen : Seen
deriving DecidableEq, Repr

/-- One step of the operand state machine. -/
def smStep (c : SMCtx) (t : AToken) : SMCtx :=
  { state := stepState t
    sawImm := c.sawImm || isImmTok t
    idxDone := c.idxDone || stepProgHit c.prog t
    prog := stepProgNext c.prog t
    seen := stepSeen c.seen t }

/-- The initial context of the operand state machine. -/
def smInit : SMCtx :=
  { state := .start, sawImm := false, idxDone := false, prog := .p0,
    seen := .zero }

/-- Acceptance decision of the operand state machine from its final
context, with the rule priority of spec section 4.3. -/
def smDecide (m : Mnemonic) (c : SMCtx) : Option AddressingMode :=
  if m.isBranch ∧ c.seen = .one .disp8 then some .REL
  else if c.sawImm then some .IMM
  else if c.idxDone then some .IDX
  else if c.seen = .one .dir8 then some .DIR
  else if c.seen = .one .ext16 then some .EXT
  else if (c.seen = .one (.reg .A) ∨ c.seen = .one (.reg .B)) ∧ m.accOk then
    some .ACC
  else if c.seen = .zero then some .INH
  else none

/-- Modelled from the spec: axel/data.py, which defines
operand_state_machine, is not in src/.  The state-machine variant of the
addressing-mode resolver: walk the operand sequence token by token
through the states START, SAW_REG, SAW_LIT, SAW_COMMA, SAW_X, then
accept from the final context. -/
def operand_state_machine (m : Mnemonic) (ops : List AToken) :
    Option AddressingMode :=
  smDecide m (ops.foldl smStep smInit)

/-- Embedding of assembler.py Assembler: the state after construction.
The constructor runs the lexer over the source to build the symbol
table, creates the parser and creates the empty program buffer; neither
the lexer pass nor the parser ever writes to the program buffer, which
is all that assemble reads, so only the buffer is carried here. -/
structure Assembler where
  program : List Nat
deriving DecidableEq, Repr

/-- Assembler.__init__: self.program = BytesIO(), an empty buffer. -/
def Assembler.init (_source : List Char) : Assembler :=
  { program := [] }

/-- Embedding of assembler.py Assembler.assemble: returns self.program.
The source contains no code writing to the buffer before returning it. -/
def Assembler.assemble (a : Assembler) : List Nat :=
  a.program

/-- Embedding of the lexer state visible to the parser: the borrowed
source text, the cursor, and the position recorded at the start of the
most recent iteration, exposed as last_addr. -/
structure LexState where
  source : List Char
  pointer : Nat
  last_addr : Nat
deriving DecidableEq, Repr

/-- Embedding of lexer.py Lexer.retract: self._pointer = self._at. -/
def LexState.retract (lx : LexState) : LexState :=
  { lx with pointer := lx.last_addr }

/-- The parser state used by take and error: its lexer and the line
counter. -/
structure ParserState where
  lexer : LexState
  line : Nat
deriving DecidableEq, Repr

/-- The diagnostic carried by the AssemblerParserError that Parser.error
raises, as the fields interpolated into its message. -/
structure Diagnostic where
  source_excerpt : List Char
  expected : String
  found : String
  line : Nat
deriving DecidableEq, Repr

/-- Embedding of parser.py Parser.error: the excerpt is the 12-character
slice of the source at the lexer's last_addr with newlines replaced by
blanks, joined with the expected-token names, the found token name and
the line counter. -/
def Parser.error (p : ParserState) (expected : String) (found : String) :
    Diagnostic :=
  { source_excerpt :=
      ((p.lexer.source.drop p.lexer.last_addr).take 12).map
        (fun c => if c = '\n' then ' ' else c)
    expected := expected
    found := found
    line := p.line }

/-- Outcome of Parser.take: a normally advanced parser, a raised
AssemblerParserError together with the retracted parser, or a
StopIteration propagated from the exhausted lexer. -/
inductive TakeResult
  | ok (p : ParserState)
  | err (p : ParserState) (d : Diagnostic)
  | stop
deriving DecidableEq, Repr

/-- Embedding of parser.py Parser.take on a list of expected tokens.
The lexer behaviour is abstracted as the step function giving the next
token and successor lexer state (none when exhausted); take is generic
in the token type, which carries its enum name.  When the token is not
in the expected list the lexer is retracted first and error is then
raised with the comma-joined expected names and the found name. -/
def Parser.take {τ : Type} [DecidableEq τ] (name : τ → String)
    (next : LexState → Option (τ × LexState))
    (p : ParserState) (test : List τ) : TakeResult :=
  match next p.lexer with
  | none => .stop
  | some (next_token, lx1) =>
    if next_token ∈ test then
      .ok { p with lexer := lx1 }
    else
      let p1 : ParserState := { p with lexer := lx1.retract }
      .err p1
        (Parser.error p1 (String.intercalate ", " (test.map name))
          (name next_token))

/-- Indexed-pattern search resumed from intermediate progress; the
incremental counterpart of hasIdx used to relate the state machine to
the direct classifier. -/
def hasIdxP : IdxProg → List AToken → Bool
  | _, [] => false
  | pr, t :: ts => stepProgHit pr t || hasIdxP (stepProgNext pr t) ts

/-- The operand sequence the parser yields for an ADC A instruction with
immediate literal 10 hex: reversed accumulation puts the literal first
and the register last. -/
def adcOpsA : List Yylex :=
  [{ token := .imm8, data := some ['#', '$', '1', '0'] },
   { token := .reg .A, data := some ['A'] }]

/-- The operand sequence for ADC B with immediate literal 10 hex. -/
def adcOpsB : List Yylex :=
  [{ token := .imm8, data := some ['#', '$', '1', '0'] },
   { token := .reg .B, data := some ['B'] }]

/-- The operand sequence for LDA A with immediate literal 01 hex. -/
def ldaOps : List Yylex :=
  [{ token := .imm8, data := some ['#', '$', '0', '1'] },
   { token := .reg .A, data := some ['A'] }]

/-- A register file with both accumulators zero and all flags clear. -/
def regsZero : Registers :=
  { AccA := { raw := 0, num := 0 }, AccB := { raw := 0, num := 0 },
    X := { num := 0 }, SP := { num := 0 }, PC := { num := 0 },
    SR := [false, false, false, false, false, false] }

/-- A register file with AccA holding 255 and all flags clear. -/
def regs255 : Registers :=
  { regsZero with AccA := { raw := 255, num := 255 } }

/-- A register file with both accumulators zero and only the carry flag
(index 0) set. -/
def regsCarry : Registers :=
  { regsZero with SR := [true, false, false, false, false, false] }

/-- A register file whose status register has Z (index 1) and O (index
3) set and every other flag clear. -/
def regsZO : Registers :=
  { regsZero with SR := [false, true, false, true, false, false] }

/-- A register file set up for the ABA scenario of the unit tests:
AccA holds 5 and AccB holds 255. -/
def abaRegs : Registers :=
  { regsZero with AccA := { raw := 5, num := 5 },
                  AccB := { raw := 255, num := 255 } }

/-- The register file Translate.aba produces from abaRegs before the
processing wrapper recomputes the flags: the raw sum 260 masks to 4. -/
def abaPost : Registers :=
  { abaRegs with AccA := { raw := 260, num := 4 } }

/-- The register file the processing wrapper leaves after the
immediate-mode ADC A scenario from regs255: AccA masked to 15, raw
reset, and the carry flag set from the raw value 271. -/
def adcPost : Registers :=
  { regsZero with AccA := { raw := 15, num := 15 },
                  SR := [true, false, false, false, false, false] }

/-- The source of the take-mismatch scenario of the spec: a line that is
no mnemonic followed by an ADD line. -/
def srcFail : List Char :=
  ('F' :: 'A' :: 'I' :: 'L' :: '\n' :: 'A' :: 'D' :: 'D' :: ' ' :: 'B' ::
   ' ' :: '#' :: '$' :: '1' :: '0' :: '\n' :: [])

/-- A parser at the start of srcFail on line 1. -/
def pFail : ParserState :=
  { lexer := { source := srcFail, pointer := 0, last_addr := 0 }, line := 1 }

/-- A lexer step that scans the four-character token FAIL as T_UNKNOWN:
it records the token start and advances the cursor past it. -/
def nextFail (lx : LexState) : Option (String × LexState) :=
  some ("T_UNKNOWN",
    { source := lx.source, pointer := lx.pointer + 4, last_addr := lx.pointer })

theorem foldl_smStep_sawImm (ops : List AToken) (c : SMCtx) :
    (ops.foldl smStep c).sawImm = (c.sawImm || hasImm ops) := by
  induction ops generalizing c with
  | nil => simp [hasImm]
  | cons t ts ih =>
    simp [List.foldl_cons, ih, smStep, hasImm, Bool.or_assoc]

theorem foldl_smStep_idxDone (ops : List AToken) (c : SMCtx) :
    (ops.foldl smStep c).idxDone = (c.idxDone || hasIdxP c.prog ops) := by
  induction ops generalizing c with
  | nil => simp [hasIdxP]
  | cons t ts ih =>
    simp [List.foldl_cons, ih, smStep, hasIdxP, Bool.or_assoc]

theorem hasIdxP_eq_hasIdx (ops : List AToken) :
    hasIdxP .p0 ops = hasIdx ops ∧
    hasIdxP .p1 ops = hasIdx (.dir8 :: ops) ∧
    hasIdxP .p2 ops = hasIdx (.dir8 :: .comma :: ops) := by
  induction ops with
  | nil => simp [hasIdxP, hasIdx]
  | cons t ts ih =>
    obtain ⟨ih0, ih1, ih2⟩ := ih
    rcases t with r | _ | _ | _ | _ | _ | _
    case reg =>
      rcases r with _ | _ | _ <;>
        simp [hasIdxP, hasIdx, stepProgHit, stepProgNext, ih0, ih1, ih2]
    all_goals
      simp [hasIdxP, hasIdx, stepProgHit, stepProgNext, ih0, ih1, ih2]

theorem foldl_smStep_seen (ops : List AToken) (c : SMCtx) :
    (ops.foldl smStep c).seen = ops.foldl stepSeen c.seen := by
  induction ops generalizing c with
  | nil => rfl
  | cons t ts ih => simp [List.foldl_cons, ih, smStep]

theorem foldl_stepSeen_many (ops : List AToken) :
    ops.foldl stepSeen .many = .many := by
  induction ops with
  | nil => rfl
  | cons t ts ih => simpa [stepSeen] using ih

theorem foldl_stepSeen_one (ops : List AToken) (t0 : AToken) :
    ops.foldl stepSeen (.one t0) =
      (if ops = [] then Seen.one t0 else Seen.many) := by
  cases ops with
  | nil => rfl
  | cons t ts => simp [stepSeen, foldl_stepSeen_many]

theorem seen_eq_one_iff (ops : List AToken) (t : AToken) :
    ops.foldl stepSeen .zero = .one t ↔ ops = [t] := by
  cases ops with
  | nil => simp
  | cons a ts =>
    simp only [List.foldl_cons, stepSeen, foldl_stepSeen_one]
    constructor
    · intro h
      by_cases hts : ts = []
      · simp [hts] at h ⊢; exact h.symm ▸ rfl
      · simp [hts] at h
    · intro h
      obtain ⟨rfl, rfl⟩ : a = t ∧ ts = [] := by
        simpa using h
      simp

theorem seen_eq_zero_iff (ops : List AToken) :
    ops.foldl stepSeen .zero = .zero ↔ ops = [] := by
  cases ops with
  | nil => simp
  | cons a ts =>
    simp [stepSeen, foldl_stepSeen_one]
    split <;> simp

/-- C3: for every mnemonic and every operand sequence, the direct
addressing-mode classifier and the state-machine variant return the same
result, including agreement on rejection. -/
theorem c3_mode_classifier_agreement (m : Mnemonic) (ops : List AToken) :
    operand_state_machine m ops = get_addressing_mode m ops := by
  unfold operand_state_machine get_addressing_mode smDecide
  have hImm : (ops.foldl smStep smInit).sawImm = hasImm ops := by
    simpa [smInit] using foldl_smStep_sawImm ops smInit
  have hIdx : (ops.foldl smStep smInit).idxDone = hasIdx ops := by
    have := foldl_smStep_idxDone ops smInit
    simpa [smInit, (hasIdxP_eq_hasIdx ops).1] using this
  have hSeen : (ops.foldl smStep smInit).seen = ops.foldl stepSeen .zero := by
    simpa [smInit] using foldl_smStep_seen ops smInit
  simp only [hImm, hIdx, hSeen, seen_eq_one_iff, seen_eq_zero_iff]

/-- C1: the assemble method returns the program buffer untouched and
empty for every source, so the source ABA does not yield its machine
code 1B; the constructor creates the buffer empty and no code ever
writes to it. -/
theorem c1_assemble_returns_empty_buffer :
    (∀ source : List Char, (Assembler.init source).assemble = []) ∧
    (Assembler.init ('A' :: 'B' :: 'A' :: '\n' :: [])).assemble ≠ [0x1B] :=
  ⟨fun _ => rfl, by decide⟩

/-- C4 counterexample: the claim fails for the plain addition operator:
U_Int8(0) + 1 updates raw to 1 while the masked value stays 0, so raw
and the masked value are no longer congruent modulo 256. -/
theorem c4_counterexample :
    ¬ (((U_Int8.init 0).add 1).1.raw % 256 =
        ((U_Int8.init 0).add 1).1.num) := by
  decide

/-- C4 amended: U_Int8 (the source U_Int16 has no raw attribute) keeps
raw congruent to the masked value modulo 256 under every sequence of the
in-place operators += and -=, and raw can leave the interval from 0 to
255. -/
theorem c4_raw_invariant_inplace :
    (∀ (n : Int) (ops : List U8Op),
      (U_Int8.runOps n ops).raw % 256 = (U_Int8.runOps n ops).num) ∧
    (∃ (n : Int) (ops : List U8Op),
      256 ≤ (U_Int8.runOps n ops).raw ∨ (U_Int8.runOps n ops).raw < 0) := by
  constructor
  · intro n ops
    have key : ∀ (l : List U8Op) (u : U_Int8), u.raw % 256 = u.num →
        (l.foldl U8Op.apply u).raw % 256 = (l.foldl U8Op.apply u).num := by
      intro l
      induction l with
      | nil => intro u h; exact h
      | cons op ts ih =>
        intro u h
        apply ih
        cases op with
        | iadd k => simp only [U8Op.apply, U_Int8.iadd]; omega
        | isub k => simp only [U8Op.apply, U_Int8.isub]; omega
    exact key ops (U_Int8.init n) (by simp [U_Int8.init])
  · exact ⟨255, [U8Op.iadd 2], by decide⟩

/-- C5 counterexample: Int8(300) keeps the value 300, which is neither
the two's-complement reinterpretation of the low 8 bits of 300 (which is
44) nor inside the signed byte range. -/
theorem c5_counterexample :
    (Int8.init 300).num = 300 ∧ ¬ ((Int8.init 300).num ≤ 127) := by
  refine ⟨?_, by decide⟩
  decide

/-- C5 amended: unsigned wrapping holds for all integers for both
widths; Int8 reinterprets as a two's-complement signed byte exactly for
inputs already reduced to 0 through 255 other than 128 (Int8(128) gives
0 and inputs outside a byte are passed through unadjusted). -/
theorem c5_integer_wrapping :
    (∀ x y : Int, (U_Int8.init (x + y)).num = (x + y) % 256) ∧
    (∀ x y : Int, (U_Int16.init (x + y)).num = (x + y) % 65536) ∧
    (∀ n : Int, 0 ≤ n → n ≤ 255 → n ≠ 128 →
      (Int8.init n).num = twosComplementLow8 n ∧
      -128 ≤ (Int8.init n).num ∧ (Int8.init n).num ≤ 127) := by
  refine ⟨fun _ _ => rfl, fun _ _ => rfl, ?_⟩
  intro n h0 h255 h128
  have hfd : n.fdiv 128 = n / 128 := Int.fdiv_eq_ediv n (by norm_num)
  have hnum : (Int8.init n).num = Int8.to_int8 n := rfl
  rw [hnum]
  unfold Int8.to_int8 twosComplementLow8
  rw [hfd]
  refine ⟨?_, ?_, ?_⟩ <;> (split <;> try split) <;> omega

/-- C5 witness: the amended statement applied at 200, whose signed
reinterpretation is -56. -/
theorem c5_witness :
    (Int8.init 200).num = twosComplementLow8 200 ∧
    -128 ≤ (Int8.init 200).num ∧ (Int8.init 200).num ≤ 127 :=
  c5_integer_wrapping.2.2 200 (by decide) (by decide) (by decide)

/-- C6 counterexample: in immediate mode with trailing register B and
carry clear, adc emits opcode C9 but adds the operand 16 to AccA, not to
the selected accumulator B, which stays 0. -/
theorem c6_counterexample :
    ((Translate.adc .IMM adcOpsB regsZero).map fun p =>
        (p.1.AccA.num, p.1.AccB.num, p.2)) = some (16, 0, [0xC9, 0x10]) ∧
    (0 : Int) ≠ 16 :=
  ⟨rfl, by decide⟩

/-- C6 amended: immediate-mode ADC selects opcode 89 for trailing
register A and C9 for trailing register B, and in both cases adds the
carry-prepended operand to AccA: with carry clear the operand 16
itself (bytes 89 10 or C9 10), and with carry set the operand with a 1
bit prepended to its binary representation, 110000 binary = 48 (bytes
89 30 or C9 30); for the ADC A scenario from AccA 255 with carry clear
the emitted bytes are 89 10 and after the processing wrapper AccA is 15
with the carry flag set. -/
theorem c6_adc_immediate :
    (∀ r : Registers, r.SR.get? 0 = some false →
      Translate.adc .IMM adcOpsA r =
        some ({ r with AccA := r.AccA.iadd 16 }, [0x89, 0x10])) ∧
    (∀ r : Registers, r.SR.get? 0 = some false →
      Translate.adc .IMM adcOpsB r =
        some ({ r with AccA := r.AccA.iadd 16 }, [0xC9, 0x10])) ∧
    (∀ r : Registers, r.SR.get? 0 = some true →
      Translate.adc .IMM adcOpsA r =
        some ({ r with AccA := r.AccA.iadd 48 }, [0x89, 0x30])) ∧
    (∀ r : Registers, r.SR.get? 0 = some true →
      Translate.adc .IMM adcOpsB r =
        some ({ r with AccA := r.AccA.iadd 48 }, [0xC9, 0x30])) ∧
    (processing Translate.adc .IMM adcOpsA regs255 =
        some (adcPost, [0x89, 0x10]) ∧
      adcPost.AccA.num = 15 ∧ adcPost.SR.get? 0 = some true) := by
  refine ⟨?_, ?_, ?_, ?_, rfl, rfl, rfl⟩ <;>
    · intro r h
      unfold Translate.adc
      rw [h]
      rfl

/-- C6 witness: the amended statement at a register file with the carry
flag set, where the prepended carry turns the operand 16 into 48 and
the emitted operand byte into 30. -/
theorem c6_witness :
    Translate.adc .IMM adcOpsA regsCarry =
      some ({ regsCarry with AccA := regsCarry.AccA.iadd 48 }, [0x89, 0x30]) :=
  c6_adc_immediate.2.2.1 regsCarry rfl

/-- C7 counterexample: immediate-mode LDA emits only the opcode byte 86
and not the operand byte, so the returned bytes differ from 86 01. -/
theorem c7_counterexample :
    ((lda .IMM ldaOps regsZero).map fun p => p.2) = some [0x86] ∧
    some [0x86] ≠ some [0x86, 0x01] :=
  ⟨rfl, by decide⟩

/-- C7 amended: for every register file, translating LDA A with
immediate literal 01 returns the single opcode byte 86 and sets AccA to
1; the operand byte is not appended. -/
theorem c7_lda_immediate (r : Registers) :
    lda .IMM ldaOps r =
      some ({ r with AccA := { raw := 1, num := 1 } }, [0x86]) ∧
    ((lda .IMM ldaOps r).map fun p => p.1.AccA.num) = some 1 :=
  ⟨rfl, rfl⟩

/-- C8: the code writes SR index 1 instead of the overflow position 3.
With Z (index 1) and O (index 3) set, CLV clears index 1 and leaves the
overflow bit at index 3 set, and SEV on an all-clear SR sets index 1,
leaving index 3 clear; the opcodes are 0A and 0B. -/
theorem c8_clv_sev_eval :
    ((Translate.clv .INH [] regsZO).map fun p => (p.1.SR, p.2)) =
      some ([false, false, false, true, false, false], [0x0A]) ∧
    ((sev .INH [] regsZero).map fun p => (p.1.SR, p.2)) =
      some ([false, true, false, false, false, false], [0x0B]) :=
  ⟨rfl, rfl⟩

/-- C2: for every translator operation and register-file state on which
the operation succeeds, the processing wrapper recomputes the status
register so that Z holds exactly when the destination accumulator's
masked value is 0, S exactly when its high bit is set, and C exactly
when the raw pre-mask value left the unsigned byte range. -/
theorem c2_processing_flags (op : OpFn) (m : AddressingMode)
    (ops : List Yylex) (r r1 : Registers) (bs : List Nat)
    (h : op m ops r = some (r1, bs)) :
    ∃ r2, processing op m ops r = some (r2, bs) ∧
      (r2.SR.get? 1 = some true ↔ r1.AccA.num = 0) ∧
      (r2.SR.get? 2 = some true ↔ 128 ≤ r1.AccA.num) ∧
      (r2.SR.get? 0 = some true ↔ (255 < r1.AccA.raw ∨ r1.AccA.raw < 0)) := by
  unfold processing
  rw [h]
  exact ⟨_, rfl, by simp [List.get?], by simp [List.get?], by simp [List.get?]⟩

/-- C2 witness: the wrapper applied to the embedded ABA operation at the
unit-test register file with AccA 5 and AccB 255. -/
theorem c2_witness :
    ∃ r2, processing Translate.aba .ACC [] abaRegs = some (r2, [0x1B]) ∧
      (r2.SR.get? 1 = some true ↔ abaPost.AccA.num = 0) ∧
      (r2.SR.get? 2 = some true ↔ 128 ≤ abaPost.AccA.num) ∧
      (r2.SR.get? 0 = some true ↔
        (255 < abaPost.AccA.raw ∨ abaPost.AccA.raw < 0)) :=
  c2_processing_flags Translate.aba .ACC [] abaRegs abaPost [0x1B] rfl

theorem twoStepInduction {P : List Char → Prop} (h0 : P [])
    (h1 : ∀ c, P [c])
    (h2 : ∀ c1 c2 rest, P rest → P (c1 :: c2 :: rest)) :
    ∀ l, P l
  | [] => h0
  | [c] => h1 c
  | c1 :: c2 :: rest => h2 c1 c2 rest (twoStepInduction h0 h1 h2 rest)

theorem fromhexL_odd (l : List Char) (ho : l.length % 2 = 1) :
    fromhexL l = none := by
  induction l using twoStepInduction with
  | h0 => simp at ho
  | h1 c => rfl
  | h2 c1 c2 rest ih =>
    have hr : rest.length % 2 = 1 := by
      simp only [List.length_cons] at ho
      omega
    unfold fromhexL
    rw [ih hr]
    cases hexVal c1 <;> cases hexVal c2 <;> rfl

theorem fromhexL_even (l : List Char) (hl : ∀ c ∈ l, (hexVal c).isSome)
    (he : l.length % 2 = 0) :
    ∃ bs, fromhexL l = some bs ∧ 2 * bs.length = l.length := by
  induction l using twoStepInduction with
  | h0 => exact ⟨[], rfl, rfl⟩
  | h1 c => simp at he
  | h2 c1 c2 rest ih =>
    have hr : rest.length % 2 = 0 := by
      simp only [List.length_cons] at he
      omega
    obtain ⟨bs, hbs, hlen⟩ := ih (fun c hc => hl c (by simp [hc])) hr
    obtain ⟨h1, hv1⟩ := Option.isSome_iff_exists.mp (hl c1 (by simp))
    obtain ⟨h2, hv2⟩ := Option.isSome_iff_exists.mp (hl c2 (by simp))
    refine ⟨(16 * h1 + h2) :: bs, ?_, ?_⟩
    · unfold fromhexL
      rw [hv1, hv2, hbs]
    · simp only [List.length_cons]
      omega

/-- C9: for a string HH of hex digits, parse_immediate_value decodes
both the immediate form (leading number sign and dollar) and the address
form (leading dollar) to bytes.fromhex of HH; an even-length HH decodes
to exactly half as many bytes and an odd-length HH is the fatal decode
error. -/
theorem c9_parse_immediate_round_trip (hh : List Char)
    (hhex : ∀ c ∈ hh, (hexVal c).isSome) :
    Parser.parse_immediate_value ('#' :: '$' :: hh) = fromhexL hh ∧
    Parser.parse_immediate_value ('$' :: hh) = fromhexL hh ∧
    (hh.length % 2 = 0 →
      ∃ bs, fromhexL hh = some bs ∧ 2 * bs.length = hh.length) ∧
    (hh.length % 2 = 1 → fromhexL hh = none) := by
  refine ⟨rfl, ?_, fun he => fromhexL_even hh hhex he, fun ho => fromhexL_odd hh ho⟩
  unfold Parser.parse_immediate_value
  norm_num
  intro hc
  exact absurd hc (by decide)

/-- C9 witness: the round trip at the two-digit literal 10. -/
theorem c9_witness :
    Parser.parse_immediate_value ('#' :: '$' :: ['1', '0']) =
      fromhexL ['1', '0'] ∧
    Parser.parse_immediate_value ('$' :: ['1', '0']) = fromhexL ['1', '0'] ∧
    (List.length ['1', '0'] % 2 = 0 →
      ∃ bs, fromhexL ['1', '0'] = some bs ∧
        2 * bs.length = List.length ['1', '0']) ∧
    (List.length ['1', '0'] % 2 = 1 → fromhexL ['1', '0'] = none) :=
  c9_parse_immediate_round_trip ['1', '0'] (by decide)

/-- C10: whenever take reads a token outside the expected list, the
result is the raised parser error on the retracted lexer, whose
diagnostic carries in order the 12-character source excerpt from the
failing token's recorded offset with newlines flattened to blanks, the
joined expected token names, the found token's name, and the current
line number; when 12 characters remain the excerpt has length exactly
12. -/
theorem c10_take_mismatch {τ : Type} [DecidableEq τ] (name : τ → String)
    (next : LexState → Option (τ × LexState)) (p : ParserState)
    (test : List τ) (tok : τ) (lx1 : LexState)
    (hnext : next p.lexer = some (tok, lx1)) (hnot : tok ∉ test) :
    Parser.take name next p test =
      .err { p with lexer := { lx1 with pointer := lx1.last_addr } }
        { source_excerpt :=
            ((lx1.source.drop lx1.last_addr).take 12).map
              (fun c => if c = '\n' then ' ' else c)
          expected := String.intercalate ", " (test.map name)
          found := name tok
          line := p.line } ∧
    (lx1.last_addr + 12 ≤ lx1.source.length →
      (((lx1.source.drop lx1.last_addr).take 12).map
        (fun c => if c = '\n' then ' ' else c)).length = 12) := by
  constructor
  · unfold Parser.take
    rw [hnext]
    simp [hnot, Parser.error, LexState.retract]
  · intro hlen
    simp only [List.length_map, List.length_take, List.length_drop]
    omega

/-- C10 witness: the spec's failing scenario, a T_UNKNOWN first token
where T_ADD is expected at the start of the source FAIL line. -/
theorem c10_witness :
    Parser.take (fun s => s) nextFail pFail ["T_ADD"] =
      .err pFail
        { source_excerpt :=
            ['F', 'A', 'I', 'L', ' ', 'A', 'D', 'D', ' ', 'B', ' ', '#']
          expected := "T_ADD"
          found := "T_UNKNOWN"
          line := 1 } ∧
    (0 + 12 ≤ srcFail.length →
      (((srcFail.drop 0).take 12).map
        (fun c => if c = '\n' then ' ' else c)).length = 12) := by
  have h := c10_take_mismatch (fun s => s) nextFail pFail ["T_ADD"]
    "T_UNKNOWN" { source := srcFail, pointer := 4, last_addr := 0 }
    rfl (by decide)
  exact ⟨by exact h.1, by exact h.2⟩

end axel
